import Mathlib

/-!
Verification of the core data model of the stx-labs/connect SDK:
the JSON-RPC error model (`src/packages/connect/src/errors.ts`), the
address normalizer, the config sanitizer and the legacy Clarity value
converter.  Each definition is a shallow embedding of the corresponding
TypeScript function; theorems settle the specification claims.
-/

/- ### Error model (src/packages/connect/src/errors.ts) -/

/-- Embedding of the `JsonRpcError` class fields: `message` (string),
`code` (number, an integer here), optional `data` (string) and optional
`cause` (an underlying error, modelled by its message).  The constructor
`new JsonRpcError(message, code, data?, cause?)` is `JsonRpcError.mk`. -/
structure JsonRpcError where
  message : String
  code : Int
  data : Option String
  cause : Option String
deriving DecidableEq, Repr

/-- The constructor always sets `this.name = 'JsonRpcError'`. -/
def jsonRpcErrorName : String := "JsonRpcError"

/-- Embedding of the wire-level `JsonRpcResponseError` shape
(`message`, `code`, optional `data`). -/
structure JsonRpcResponseError where
  message : String
  code : Int
  data : Option String
deriving DecidableEq, Repr

/-- `JsonRpcError.fromResponse(error)` is
`new JsonRpcError(error.message, error.code, error.data)`; the `cause`
argument is not passed, so it is absent. -/
def JsonRpcError.fromResponse (e : JsonRpcResponseError) : JsonRpcError :=
  ⟨e.message, e.code, e.data, none⟩

/-- One hexadecimal digit, lower case, as produced by JavaScript string
escapes. -/
def hexDigit (n : Nat) : Char :=
  if n < 10 then Char.ofNat (48 + n) else Char.ofNat (87 + n)

/-- Four hexadecimal digits of `n`, for a `\u....` escape. -/
def hex4 (n : Nat) : String :=
  String.mk [hexDigit ((n / 4096) % 16), hexDigit ((n / 256) % 16),
    hexDigit ((n / 16) % 16), hexDigit (n % 16)]

/-- How `JSON.stringify` renders one character inside a string literal:
`"` and `\` are escaped, the control characters get their short escapes
(`\b \t \n \f \r`) or a `\u00..` escape, everything else is copied. -/
def jsonEscapeChar (c : Char) : String :=
  if c.toNat = 34 then "\\\""
  else if c.toNat = 92 then "\\\\"
  else if c.toNat = 8 then "\\b"
  else if c.toNat = 9 then "\\t"
  else if c.toNat = 10 then "\\n"
  else if c.toNat = 12 then "\\f"
  else if c.toNat = 13 then "\\r"
  else if c.toNat < 32 then "\\u" ++ hex4 c.toNat
  else String.singleton c

/-- `JSON.stringify` applied to a string value. -/
def jsonStringOfString (s : String) : String :=
  "\"" ++ String.join (s.toList.map jsonEscapeChar) ++ "\""

/-- The template fragment
``${this.data ? `: ${JSON.stringify(this.data)}` : ''}``: JavaScript
truthiness on a `string | undefined` field is false for `undefined` and
for the empty string. -/
def dataSuffix : Option String → String
  | none => ""
  | some d => if d = "" then "" else ": " ++ jsonStringOfString d

/-- `toString()` of `JsonRpcError`:
``${this.name} (${this.code}): ${this.message}`` followed by the data
suffix. -/
def JsonRpcError.toString (e : JsonRpcError) : String :=
  jsonRpcErrorName ++ " (" ++ ToString.toString e.code ++ "): "
    ++ e.message ++ dataSuffix e.data

/-- A JavaScript value reaching the `isJsonRpcError` type guard: an
instance created through the `JsonRpcError` class constructor, a plain
object that merely has the same `message`/`code`/`data` shape, or any
other value.  `instanceof` is a nominal (prototype-chain) check, so only
the first alternative satisfies it. -/
inductive JSValue where
  | rpcErrorInstance (e : JsonRpcError)
  | plainObject (message : String) (code : Int) (data : Option String)
  | otherValue (tag : String)
deriving DecidableEq, Repr

/-- `isJsonRpcError(error)` is `error instanceof JsonRpcError`. -/
def isJsonRpcError : JSValue → Bool
  | .rpcErrorInstance _ => true
  | _ => false

/-- The fifteen members of the `JsonRpcErrorCode` enum. -/
inductive JsonRpcErrorCode where
  | ParseError
  | InvalidRequest
  | MethodNotFound
  | InvalidParams
  | InternalError
  | UserRejection
  | MethodAddressMismatch
  | MethodAccessDenied
  | NetworkError
  | TimeoutError
  | ProviderNotFound
  | UnsupportedMethod
  | InvalidNetwork
  | UnknownError
  | UserCanceled
deriving DecidableEq, Repr

/-- The numeric value the enum assigns to each member. -/
def JsonRpcErrorCode.code : JsonRpcErrorCode → Int
  | .ParseError => -32700
  | .InvalidRequest => -32600
  | .MethodNotFound => -32601
  | .InvalidParams => -32602
  | .InternalError => -32603
  | .UserRejection => -32000
  | .MethodAddressMismatch => -32001
  | .MethodAccessDenied => -32002
  | .NetworkError => -32003
  | .TimeoutError => -32004
  | .ProviderNotFound => -32005
  | .UnsupportedMethod => -32006
  | .InvalidNetwork => -32007
  | .UnknownError => -31000
  | .UserCanceled => -31001

/- ### Theorems for the error model claims -/

/-- C1 counterexample: the claim says a present-but-empty `data` still
appends the suffix `: ""`, but the source guards the suffix with
JavaScript truthiness (`this.data ?`), which is false for the empty
string.  At `new JsonRpcError('Test error', -32000, '')` the output has
no suffix. -/
theorem toString_empty_data_no_suffix :
    JsonRpcError.toString ⟨"Test error", -32000, some "", none⟩
      = "JsonRpcError (-32000): Test error"
    ∧ JsonRpcError.toString ⟨"Test error", -32000, some "", none⟩
      ≠ "JsonRpcError (-32000): Test error: \"\"" := by
  constructor
  · rfl
  · decide

/-- C1 (amended): `toString()` returns exactly
`JsonRpcError (<code>): <message>` when `data` is absent or is the empty
string, and appends `: <JSON-encoded data>` exactly when `data` is
present and non-empty (JavaScript truthiness of a string field). -/
theorem toString_format (e : JsonRpcError) :
    (e.data = none ∨ e.data = some "" →
      JsonRpcError.toString e
        = "JsonRpcError" ++ " (" ++ ToString.toString e.code ++ "): " ++ e.message)
    ∧ (∀ d, e.data = some d → d ≠ "" →
      JsonRpcError.toString e
        = "JsonRpcError" ++ " (" ++ ToString.toString e.code ++ "): " ++ e.message
          ++ ": " ++ jsonStringOfString d) := by
  constructor
  · intro h
    rcases h with h | h <;>
      simp [JsonRpcError.toString, dataSuffix, jsonRpcErrorName, h]
  · intro d hd hne
    simp [JsonRpcError.toString, dataSuffix, jsonRpcErrorName, hd, hne,
      String.append_assoc]

/-- C1 witness: evaluation of the amended format at the two source test
inputs. -/
theorem toString_format_witness :
    JsonRpcError.toString ⟨"Test error", -32000, none, none⟩
      = "JsonRpcError (-32000): Test error"
    ∧ JsonRpcError.toString ⟨"Test error", -32000, some "extra info", none⟩
      = "JsonRpcError (-32000): Test error: \"extra info\"" := by
  constructor
  · have h := (toString_format ⟨"Test error", -32000, none, none⟩).1 (Or.inl rfl)
    rw [h]; rfl
  · have h := (toString_format ⟨"Test error", -32000, some "extra info", none⟩).2
      "extra info" rfl (by decide)
    rw [h]; rfl

/-- C2: the fifteen error-code constants have exactly the values of the
taxonomy table. -/
theorem errorCode_table :
    JsonRpcErrorCode.ParseError.code = -32700
    ∧ JsonRpcErrorCode.InvalidRequest.code = -32600
    ∧ JsonRpcErrorCode.MethodNotFound.code = -32601
    ∧ JsonRpcErrorCode.InvalidParams.code = -32602
    ∧ JsonRpcErrorCode.InternalError.code = -32603
    ∧ JsonRpcErrorCode.UserRejection.code = -32000
    ∧ JsonRpcErrorCode.MethodAddressMismatch.code = -32001
    ∧ JsonRpcErrorCode.MethodAccessDenied.code = -32002
    ∧ JsonRpcErrorCode.NetworkError.code = -32003
    ∧ JsonRpcErrorCode.TimeoutError.code = -32004
    ∧ JsonRpcErrorCode.ProviderNotFound.code = -32005
    ∧ JsonRpcErrorCode.UnsupportedMethod.code = -32006
    ∧ JsonRpcErrorCode.InvalidNetwork.code = -32007
    ∧ JsonRpcErrorCode.UnknownError.code = -31000
    ∧ JsonRpcErrorCode.UserCanceled.code = -31001 := by
  decide

/-- C7: `isJsonRpcError` is true for every value produced by the
`JsonRpcError` constructor or by `fromResponse`, and false for every
other value, including plain objects with the same field shape. -/
theorem isJsonRpcError_spec :
    (∀ m c d cs, isJsonRpcError (.rpcErrorInstance ⟨m, c, d, cs⟩) = true)
    ∧ (∀ r : JsonRpcResponseError,
        isJsonRpcError (.rpcErrorInstance (JsonRpcError.fromResponse r)) = true)
    ∧ (∀ m c d, isJsonRpcError (.plainObject m c d) = false)
    ∧ (∀ t, isJsonRpcError (.otherValue t) = false) :=
  ⟨fun _ _ _ _ => rfl, fun _ => rfl, fun _ _ _ => rfl, fun _ => rfl⟩

/-- C8: `fromResponse` copies `message`, `code` and `data` from the
response object; in particular `data` is absent exactly when absent on
the input. -/
theorem fromResponse_fields (r : JsonRpcResponseError) :
    (JsonRpcError.fromResponse r).message = r.message
    ∧ (JsonRpcError.fromResponse r).code = r.code
    ∧ (JsonRpcError.fromResponse r).data = r.data :=
  ⟨rfl, rfl, rfl⟩

/- ### Address normalizer (src/storage.ts, tested by tests/storage.test.ts) -/

/-- Modelled from the spec: the implementation file `src/storage.ts`
holding `normalizeAddresses` is not part of the sources, only its tests
are.  An `AddressEntry` has a mandatory `address` (string, the dedup
key); every other key of the record, sensitive or not, is modelled as an
ordered association list `extra`, so that the spec's "keys removed
entirely" and "keys preserved by value" are both expressible. -/
structure AddressEntry where
  address : String
  extra : List (String × String)
deriving DecidableEq, Repr

/-- The three secret/sensitive keys stripped on normalization. -/
def sensitiveKeys : List String := ["publicKey", "derivationPath", "tweakedPublicKey"]

/-- Modelled from the spec: for every retained entry, produce a new
record with `publicKey`, `derivationPath`, `tweakedPublicKey` removed
entirely and all other keys preserved by value. -/
def scrubEntry (e : AddressEntry) : AddressEntry :=
  ⟨e.address, e.extra.filter fun kv => !(sensitiveKeys.contains kv.1)⟩

/-- Modelled from the spec: iterate entries in input order and retain
only the first entry seen for each distinct `address` value, scrubbing
each retained entry; `seen` accumulates the addresses already output. -/
def normalizeAddressesGo : List AddressEntry → List String → List AddressEntry
  | [], _ => []
  | e :: rest, seen =>
    if e.address ∈ seen then normalizeAddressesGo rest seen
    else scrubEntry e :: normalizeAddressesGo rest (e.address :: seen)

/-- Modelled from the spec: `normalizeAddresses` (from the missing
`src/storage.ts`), per spec section 4.3. -/
def normalizeAddresses (entries : List AddressEntry) : List AddressEntry :=
  normalizeAddressesGo entries []

/-- The claim's independent characterization of deduplication: keep each
entry whose `address` did not occur earlier, i.e. drop all later
duplicates of the head, recursively. -/
def keepFirstByAddress : List AddressEntry → List AddressEntry
  | [] => []
  | e :: rest =>
    e :: keepFirstByAddress (rest.filter fun x => decide (x.address ≠ e.address))
termination_by l => l.length
decreasing_by
  simp only [List.length_cons]
  exact Nat.lt_succ_of_le (List.length_filter_le _ _)

theorem normalizeAddressesGo_eq (entries : List AddressEntry) :
    ∀ seen : List String,
      normalizeAddressesGo entries seen
        = (keepFirstByAddress
            (entries.filter fun e => decide (e.address ∉ seen))).map scrubEntry := by
  induction entries with
  | nil =>
    intro seen
    simp [normalizeAddressesGo, keepFirstByAddress]
  | cons e rest ih =>
    intro seen
    by_cases hc : e.address ∈ seen
    · simp [normalizeAddressesGo, hc, List.filter_cons, ih]
    · have hpe : decide (e.address ∉ seen) = true := by simpa using hc
      have hAB : (rest.filter fun x => decide (x.address ∉ seen)).filter
            (fun x => decide (x.address ≠ e.address))
          = rest.filter fun x => decide (x.address ∉ e.address :: seen) := by
        rw [List.filter_filter]
        apply List.filter_congr
        intro x hx
        by_cases h1 : x.address = e.address <;> by_cases h2 : x.address ∈ seen <;>
          simp [h1, h2]
      rw [normalizeAddressesGo, if_neg hc, List.filter_cons]
      rw [hpe]
      simp only [if_true]
      rw [keepFirstByAddress, hAB, List.map_cons, ih (e.address :: seen)]

theorem keepFirstByAddress_sublist :
    (l : List AddressEntry) → List.Sublist (keepFirstByAddress l) l
  | [] => by rw [keepFirstByAddress]
  | e :: rest => by
    rw [keepFirstByAddress]
    exact List.Sublist.cons₂ e
      ((keepFirstByAddress_sublist _).trans (List.filter_sublist _))
termination_by l => l.length
decreasing_by
  simp only [List.length_cons]
  exact Nat.lt_succ_of_le (List.length_filter_le _ _)

theorem keepFirstByAddress_nodup :
    (l : List AddressEntry) → ((keepFirstByAddress l).map AddressEntry.address).Nodup
  | [] => by rw [keepFirstByAddress]; exact List.nodup_nil
  | e :: rest => by
    rw [keepFirstByAddress]
    simp only [List.map_cons, List.nodup_cons]
    refine ⟨fun hmem => ?_, keepFirstByAddress_nodup _⟩
    obtain ⟨x, hx, hxa⟩ := List.mem_map.mp hmem
    have hx2 : x ∈ rest.filter fun y => decide (y.address ≠ e.address) :=
      (keepFirstByAddress_sublist _).subset hx
    have hp := List.of_mem_filter hx2
    simp [hxa] at hp
termination_by l => l.length
decreasing_by
  simp only [List.length_cons]
  exact Nat.lt_succ_of_le (List.length_filter_le _ _)

theorem all_filter_self {α : Type} (p : α → Bool) (l : List α) :
    (l.filter p).all p = true := by
  rw [List.all_eq_true]
  exact fun a ha => List.of_mem_filter ha

/-- C3: `normalize` returns the subsequence of entries that are first
occurrences of their address (in input order), each scrubbed of the
three sensitive keys with other keys preserved: it equals
`keepFirstByAddress` followed by `scrubEntry`; hence output length is at
most input length, output addresses are pairwise distinct, no output
entry carries a sensitive key, and the empty input yields the empty
output. -/
theorem normalizeAddresses_spec (entries : List AddressEntry) :
    normalizeAddresses entries = (keepFirstByAddress entries).map scrubEntry
    ∧ (normalizeAddresses entries).length ≤ entries.length
    ∧ ((normalizeAddresses entries).map AddressEntry.address).Nodup
    ∧ ((normalizeAddresses entries).all fun e =>
        e.extra.all fun kv => !(sensitiveKeys.contains kv.1)) = true
    ∧ normalizeAddresses ([] : List AddressEntry) = [] := by
  have hchar : normalizeAddresses entries = (keepFirstByAddress entries).map scrubEntry := by
    have h := normalizeAddressesGo_eq entries []
    simpa [normalizeAddresses] using h
  refine ⟨hchar, ?_, ?_, ?_, rfl⟩
  · rw [hchar, List.length_map]
    exact (keepFirstByAddress_sublist entries).length_le
  · rw [hchar, List.map_map]
    have : (AddressEntry.address ∘ scrubEntry) = AddressEntry.address := by
      funext x; rfl
    rw [this]
    exact keepFirstByAddress_nodup entries
  · rw [hchar, List.all_eq_true]
    intro e he
    obtain ⟨x, _, hxe⟩ := List.mem_map.mp he
    rw [← hxe]
    exact all_filter_self _ x.extra

/- ### Config sanitizer (src/utils.ts, tested by tests/utils.test.ts) -/

/-- Modelled from the spec: the implementation file `src/utils.ts`
holding `removeUnserializableKeys` is not part of the sources, only its
tests are.  A JavaScript value of an options object: a string, a number,
a callable (identified by an opaque id), a nested object, or the absent
`undefined` value. -/
inductive JSVal where
  | str (s : String)
  | num (n : Int)
  | fn (id : Nat)
  | obj (fields : List (String × JSVal))
  | undef

/-- First binding of key `k` in an object, i.e. JavaScript property
access (objects have unique keys, so first binding is the binding). -/
def lookupKey : List (String × JSVal) → String → Option JSVal
  | [], _ => none
  | kv :: rest, k => if kv.1 = k then some kv.2 else lookupKey rest k

/-- The object `{...o, k: v}`: `k` is overwritten in place when already
present, appended otherwise; all other bindings are kept as they are. -/
def setKey (o : List (String × JSVal)) (k : String) (v : JSVal) : List (String × JSVal) :=
  if o.any fun kv => decide (kv.1 = k) then
    o.map fun kv => if kv.1 = k then (k, v) else kv
  else o ++ [(k, v)]

/-- Modelled from the spec: `removeUnserializableKeys(options)` returns
a shallow copy of `options` with `onFinish` and `onCancel` explicitly
present but bound to the absent value, per spec section 4.4. -/
def removeUnserializableKeys (options : List (String × JSVal)) : List (String × JSVal) :=
  setKey (setKey options "onFinish" JSVal.undef) "onCancel" JSVal.undef

theorem lookupKey_map_overwrite (k : String) (v : JSVal) :
    ∀ o : List (String × JSVal), (o.any fun kv => decide (kv.1 = k)) = true →
      lookupKey (o.map fun kv => if kv.1 = k then (k, v) else kv) k = some v := by
  intro o
  induction o with
  | nil => intro h; simp at h
  | cons kv rest ih =>
    intro h
    by_cases hk : kv.1 = k
    · simp [lookupKey, hk]
    · have h2 : (rest.any fun kv => decide (kv.1 = k)) = true := by
        simp [List.any_cons, hk] at h
        simpa using h
      simp [lookupKey, hk, ih h2]

theorem lookupKey_append_new (k : String) (v : JSVal) :
    ∀ o : List (String × JSVal), (o.any fun kv => decide (kv.1 = k)) = false →
      lookupKey (o ++ [(k, v)]) k = some v := by
  intro o
  induction o with
  | nil => intro _; simp [lookupKey]
  | cons kv rest ih =>
    intro h
    simp only [List.any_cons, Bool.or_eq_false_iff, decide_eq_false_iff_not] at h
    simp [lookupKey, h.1, ih h.2]

theorem lookupKey_setKey_same (o : List (String × JSVal)) (k : String) (v : JSVal) :
    lookupKey (setKey o k v) k = some v := by
  unfold setKey
  by_cases h : (o.any fun kv => decide (kv.1 = k)) = true
  · rw [if_pos h]
    exact lookupKey_map_overwrite k v o h
  · rw [if_neg h]
    exact lookupKey_append_new k v o (Bool.eq_false_iff.mpr h)

theorem lookupKey_setKey_other (o : List (String × JSVal)) (k k2 : String) (v : JSVal)
    (hne : k2 ≠ k) :
    lookupKey (setKey o k v) k2 = lookupKey o k2 := by
  unfold setKey
  by_cases h : (o.any fun kv => decide (kv.1 = k)) = true
  · rw [if_pos h]
    clear h
    induction o with
    | nil => rfl
    | cons kv rest ih =>
      by_cases hk : kv.1 = k
      · have hk2 : ¬ (k = k2) := fun hx => hne hx.symm
        have hk3 : ¬ (kv.1 = k2) := by rw [hk]; exact hk2
        simp [lookupKey, hk, hk2, hk3, ih]
      · by_cases hq : kv.1 = k2 <;> simp [lookupKey, hk, hq, hne, ih]
  · rw [if_neg h]
    clear h
    induction o with
    | nil =>
      have hk2 : ¬ (k = k2) := fun hx => hne hx.symm
      simp [lookupKey, hk2]
    | cons kv rest ih =>
      by_cases hq : kv.1 = k2 <;> simp [lookupKey, hq, ih]

/-- C4: sanitization leaves `onFinish` and `onCancel` present but bound
to the absent value, regardless of the input, and every other key keeps
the value it had on the input (shallow pass-through, nested objects
untouched). -/
theorem removeUnserializableKeys_spec (o : List (String × JSVal)) :
    lookupKey (removeUnserializableKeys o) "onFinish" = some JSVal.undef
    ∧ lookupKey (removeUnserializableKeys o) "onCancel" = some JSVal.undef
    ∧ ∀ k, k ≠ "onFinish" → k ≠ "onCancel" →
        lookupKey (removeUnserializableKeys o) k = lookupKey o k := by
  refine ⟨?_, ?_, ?_⟩
  · rw [removeUnserializableKeys,
      lookupKey_setKey_other _ _ _ _ (by decide),
      lookupKey_setKey_same]
  · rw [removeUnserializableKeys, lookupKey_setKey_same]
  · intro k h1 h2
    rw [removeUnserializableKeys,
      lookupKey_setKey_other _ _ _ _ h2,
      lookupKey_setKey_other _ _ _ _ h1]

/-- C4 witness: the spec scenario: input with `data`, `onFinish`,
`onCancel` keys keeps `data` unchanged while both callbacks become
absent. -/
theorem removeUnserializableKeys_witness :
    lookupKey (removeUnserializableKeys
        [("data", JSVal.str "x"), ("onFinish", JSVal.fn 1), ("onCancel", JSVal.fn 2)])
        "data" = some (JSVal.str "x")
    ∧ lookupKey (removeUnserializableKeys
        [("data", JSVal.str "x"), ("onFinish", JSVal.fn 1), ("onCancel", JSVal.fn 2)])
        "onFinish" = some JSVal.undef :=
  ⟨(removeUnserializableKeys_spec
      [("data", JSVal.str "x"), ("onFinish", JSVal.fn 1), ("onCancel", JSVal.fn 2)]).2.2
      "data" (by decide) (by decide),
    (removeUnserializableKeys_spec
      [("data", JSVal.str "x"), ("onFinish", JSVal.fn 1), ("onCancel", JSVal.fn 2)]).1⟩

/- ### Legacy Clarity value converter (src/utils.ts, tested by tests/utils.test.ts) -/

/-- Modelled from the spec: the implementation file `src/utils.ts`
holding `legacyCVToCV` is not part of the sources, only its tests are.
Following the spec's design note, the duck-typed value space is an
explicit discriminated union: the nine legacy tag shapes (numeric type
tags 0, 1, 2, 3, 4, 9, 11, 13, 14), the corresponding current
constructors (`Cl.int`, `Cl.uint`, `Cl.buffer`, `Cl.bool`, `Cl.none`,
`Cl.list`, `Cl.stringAscii`, `Cl.stringUtf8`), and an `unrecognized`
shape for any other/malformed input.  Integers are arbitrary precision
(`Int`), buffers are byte lists, strings are Unicode strings. -/
inductive CV where
  | legacyInt (value : Int)
  | legacyUInt (value : Int)
  | legacyBuffer (buffer : List Nat)
  | legacyBoolTrue
  | legacyBoolFalse
  | legacyNone
  | legacyList (list : List CV)
  | legacyStringAscii (data : String)
  | legacyStringUtf8 (data : String)
  | intCV (value : Int)
  | uintCV (value : Int)
  | bufferCV (buffer : List Nat)
  | boolCV (b : Bool)
  | noneCV
  | listCV (list : List CV)
  | stringAsciiCV (data : String)
  | stringUtf8CV (data : String)
  | unrecognized (tag : Int)

mutual

/-- Modelled from the spec: `legacyCVToCV` dispatches on the legacy tag,
maps each legacy shape to the corresponding current constructor
(recursing into list elements), and returns any non-legacy input
unchanged (the pass-through branch), per spec section 4.2. -/
def legacyCVToCV : CV → CV
  | .legacyBoolTrue => .boolCV true
  | .legacyBoolFalse => .boolCV false
  | .legacyInt v => .intCV v
  | .legacyUInt v => .uintCV v
  | .legacyBuffer b => .bufferCV b
  | .legacyStringAscii s => .stringAsciiCV s
  | .legacyStringUtf8 s => .stringUtf8CV s
  | .legacyNone => .noneCV
  | .legacyList l => .listCV (legacyCVToCVList l)
  | v => v

/-- Element-wise conversion of a legacy list payload, in order. -/
def legacyCVToCVList : List CV → List CV
  | [] => []
  | v :: rest => legacyCVToCV v :: legacyCVToCVList rest

end

/-- A value matches a recognized legacy tag shape exactly when it is one
of the nine legacy variants. -/
def isLegacyShape : CV → Bool
  | .legacyInt _ => true
  | .legacyUInt _ => true
  | .legacyBuffer _ => true
  | .legacyBoolTrue => true
  | .legacyBoolFalse => true
  | .legacyNone => true
  | .legacyList _ => true
  | .legacyStringAscii _ => true
  | .legacyStringUtf8 _ => true
  | _ => false

mutual

/-- Total node count of a value. -/
def sizeCV : CV → Nat
  | .legacyList l => 1 + sizeCVList l
  | .listCV l => 1 + sizeCVList l
  | _ => 1

/-- Total node count of a list of values. -/
def sizeCVList : List CV → Nat
  | [] => 0
  | v :: rest => sizeCV v + sizeCVList rest

end

theorem legacyCVToCVList_eq_map (l : List CV) :
    legacyCVToCVList l = l.map legacyCVToCV := by
  induction l with
  | nil => rfl
  | cons v rest ih => rw [legacyCVToCVList, ih, List.map_cons]

mutual

theorem sizeCV_convert_aux : (v : CV) → sizeCV (legacyCVToCV v) = sizeCV v
  | .legacyInt _ => rfl
  | .legacyUInt _ => rfl
  | .legacyBuffer _ => rfl
  | .legacyBoolTrue => rfl
  | .legacyBoolFalse => rfl
  | .legacyNone => rfl
  | .legacyList l => by
    rw [show legacyCVToCV (.legacyList l) = .listCV (legacyCVToCVList l) from rfl]
    rw [show sizeCV (.listCV (legacyCVToCVList l)) = 1 + sizeCVList (legacyCVToCVList l) from rfl]
    rw [sizeCVList_convert_aux l]
    rfl
  | .legacyStringAscii _ => rfl
  | .legacyStringUtf8 _ => rfl
  | .intCV _ => rfl
  | .uintCV _ => rfl
  | .bufferCV _ => rfl
  | .boolCV _ => rfl
  | .noneCV => rfl
  | .listCV _ => rfl
  | .stringAsciiCV _ => rfl
  | .stringUtf8CV _ => rfl
  | .unrecognized _ => rfl

theorem sizeCVList_convert_aux : (l : List CV) → sizeCVList (legacyCVToCVList l) = sizeCVList l
  | [] => rfl
  | v :: rest => by
    rw [legacyCVToCVList]
    rw [show sizeCVList (legacyCVToCV v :: legacyCVToCVList rest)
        = sizeCV (legacyCVToCV v) + sizeCVList (legacyCVToCVList rest) from rfl]
    rw [sizeCV_convert_aux v, sizeCVList_convert_aux rest]
    rfl

end

/-- C5: on each well-formed legacy shape, `legacyCVToCV` produces the
corresponding current constructor, carrying the payload unchanged
(arbitrary-precision integers, byte-identical buffers, codepoint-exact
strings) and converting list elements recursively in order. -/
theorem legacyCVToCV_conversions :
    legacyCVToCV .legacyBoolTrue = .boolCV true
    ∧ legacyCVToCV .legacyBoolFalse = .boolCV false
    ∧ (∀ v, legacyCVToCV (.legacyInt v) = .intCV v)
    ∧ (∀ v, legacyCVToCV (.legacyUInt v) = .uintCV v)
    ∧ (∀ b, legacyCVToCV (.legacyBuffer b) = .bufferCV b)
    ∧ (∀ s, legacyCVToCV (.legacyStringAscii s) = .stringAsciiCV s)
    ∧ (∀ s, legacyCVToCV (.legacyStringUtf8 s) = .stringUtf8CV s)
    ∧ legacyCVToCV .legacyNone = .noneCV
    ∧ (∀ l, legacyCVToCV (.legacyList l) = .listCV (l.map legacyCVToCV)) := by
  refine ⟨rfl, rfl, fun _ => rfl, fun _ => rfl, fun _ => rfl, fun _ => rfl,
    fun _ => rfl, rfl, fun l => ?_⟩
  rw [show legacyCVToCV (.legacyList l) = .listCV (legacyCVToCVList l) from rfl]
  rw [legacyCVToCVList_eq_map]

/-- C6: every input that does not match a recognized legacy tag shape —
already-current values and unrecognized shapes alike — is returned
unchanged; the converter is total, so no error path exists. -/
theorem legacyCVToCV_passthrough (v : CV) (h : isLegacyShape v = false) :
    legacyCVToCV v = v := by
  cases v <;> first
    | rfl
    | simp [isLegacyShape] at h

/-- C6 witness: the already-current value `Cl.uint(123)` from the
pass-through test is returned unchanged. -/
theorem legacyCVToCV_passthrough_witness :
    isLegacyShape (CV.uintCV 123) = false
    ∧ legacyCVToCV (CV.uintCV 123) = CV.uintCV 123 :=
  ⟨rfl, legacyCVToCV_passthrough (CV.uintCV 123) rfl⟩

/-- C9: `legacyCVToCV` is a total function of the embedded value domain
(it is defined by structural recursion, so it terminates on every input,
however deeply lists are nested), and it preserves the total node count,
reflecting work linear in the input size. -/
theorem legacyCVToCV_total (v : CV) :
    ∃ r : CV, legacyCVToCV v = r ∧ sizeCV r = sizeCV v :=
  ⟨legacyCVToCV v, rfl, sizeCV_convert_aux v⟩

/-- C10: `legacyCVToCV` is idempotent: its output never matches a legacy
shape, so converting a second time passes the value through unchanged. -/
theorem legacyCVToCV_idempotent (v : CV) :
    legacyCVToCV (legacyCVToCV v) = legacyCVToCV v := by
  cases v <;> rfl
